import Mathlib

/-
Verification development for the procm repository (src/lib.ts, src/index.ts).

Strings from the TypeScript source are modelled as `List Char`.  JS numbers
produced by `+s` on the regex-captured numeric fields are modelled exactly:
integers as `Nat`, decimal cpu/mem percentages as `Option ℚ` where `none`
stands for NaN (the result of coercing a malformed numeral such as "1.2.3"
or "."); ECMAScript SortCompare treats a NaN comparator result as +0, which
the comparator model reflects.
-/

/- ── Character classes of the JS regex in src/lib.ts (PS_REGEX) ───────────── -/

/-- JS regex `\d`: the ASCII digits. -/
def isDigitC (c : Char) : Bool := decide (48 ≤ c.toNat ∧ c.toNat ≤ 57)

/-- JS regex `\s`: ECMAScript WhiteSpace and LineTerminator code points. -/
def isJsSpace (c : Char) : Bool := decide
  (c.toNat = 32 ∨ c.toNat = 9 ∨ c.toNat = 10 ∨ c.toNat = 11 ∨ c.toNat = 12 ∨
   c.toNat = 13 ∨ c.toNat = 160 ∨ c.toNat = 5760 ∨
   (8192 ≤ c.toNat ∧ c.toNat ≤ 8202) ∨ c.toNat = 8232 ∨ c.toNat = 8233 ∨
   c.toNat = 8239 ∨ c.toNat = 8287 ∨ c.toNat = 12288 ∨ c.toNat = 65279)

/-- JS regex `\w`: ASCII letters, digits and underscore. -/
def isWordC (c : Char) : Bool := decide
  ((65 ≤ c.toNat ∧ c.toNat ≤ 90) ∨ (97 ≤ c.toNat ∧ c.toNat ≤ 122) ∨
   (48 ≤ c.toNat ∧ c.toNat ≤ 57) ∨ c.toNat = 95)

/-- JS regex class `[\d.]`. -/
def isDigitDotC (c : Char) : Bool := decide
  ((48 ≤ c.toNat ∧ c.toNat ≤ 57) ∨ c.toNat = 46)

/-- JS regex class `[\d:]`. -/
def isDigitColonC (c : Char) : Bool := decide
  ((48 ≤ c.toNat ∧ c.toNat ≤ 57) ∨ c.toNat = 58)

/-- JS regex `.` without the s flag: any char except a LineTerminator. -/
def isDotC (c : Char) : Bool := decide
  (¬ (c.toNat = 10 ∨ c.toNat = 13 ∨ c.toNat = 8232 ∨ c.toNat = 8233))

/- ── A backtracking matcher for the shape of PS_REGEX ─────────────────────────
PS_REGEX is an anchored sequence of greedy character-class quantifiers
(`\s*` then `C+` atoms), some of them capturing.  Matching such a pattern in
a backtracking engine tries, for each atom, run lengths from the longest
class run downwards, recursing on the rest of the pattern; `^...$` forces
the whole line to be consumed.  `matchSeq` implements exactly that. -/

/-- One atom of the pattern: a character class, `plus` (`C+` vs `C*`),
and whether the run is a capture group. -/
structure RItem where
  cls : Char → Bool
  plus : Bool
  cap : Bool

/-- Try run lengths `k, k-1, …` (down to 1 for `C+`, 0 for `C*`) for the
current atom, longest first, returning the chosen run and the captures of
the rest of the pattern. -/
def tryLens (cont : List Char → Option (List (List Char))) (s : List Char)
    (lo : ℕ) : ℕ → Option (List Char × List (List Char))
  | 0 =>
    if lo = 0 then
      match cont s with
      | some caps => some ([], caps)
      | none => none
    else none
  | k + 1 =>
    if k + 1 < lo then none
    else
      match cont (s.drop (k + 1)) with
      | some caps => some (s.take (k + 1), caps)
      | none => tryLens cont s lo k

/-- Greedy backtracking match of a sequence of atoms against the whole
string, returning the list of captured runs. -/
def matchSeq : List RItem → List Char → Option (List (List Char))
  | [], s => if s.isEmpty then some [] else none
  | it :: rest, s =>
    match tryLens (matchSeq rest) s (if it.plus then 1 else 0)
        ((s.takeWhile it.cls).length) with
    | none => none
    | some (run, caps) => some (if it.cap then run :: caps else caps)

/-- PS_REGEX from src/lib.ts:
`^\s*(\d+)\s+(\d+)\s+([\d.]+)\s+([\d.]+)\s+(\S+)\s+(\S+)\s+\w+\s+\w+\s+\d+\s+[\d:]+\s+\d+\s+(.+)$`
as a sequence of atoms for `matchSeq`. -/
def PS_REGEX : List RItem := [
  ⟨isJsSpace, false, false⟩,
  ⟨isDigitC, true, true⟩,
  ⟨isJsSpace, true, false⟩,
  ⟨isDigitC, true, true⟩,
  ⟨isJsSpace, true, false⟩,
  ⟨isDigitDotC, true, true⟩,
  ⟨isJsSpace, true, false⟩,
  ⟨isDigitDotC, true, true⟩,
  ⟨isJsSpace, true, false⟩,
  ⟨fun c => !isJsSpace c, true, true⟩,
  ⟨isJsSpace, true, false⟩,
  ⟨fun c => !isJsSpace c, true, true⟩,
  ⟨isJsSpace, true, false⟩,
  ⟨isWordC, true, false⟩,
  ⟨isJsSpace, true, false⟩,
  ⟨isWordC, true, false⟩,
  ⟨isJsSpace, true, false⟩,
  ⟨isDigitC, true, false⟩,
  ⟨isJsSpace, true, false⟩,
  ⟨isDigitColonC, true, false⟩,
  ⟨isJsSpace, true, false⟩,
  ⟨isDigitC, true, false⟩,
  ⟨isJsSpace, true, false⟩,
  ⟨isDotC, true, true⟩
]

/- ── Numeric conversions (JS unary plus on the captured fields) ───────────── -/

/-- Value of a digit string, as read by JS `+s` on an all-digit capture. -/
def digitsVal (s : List Char) : ℕ := s.foldl (fun a c => 10 * a + (c.toNat - 48)) 0

/-- JS `+s` on a `[\d.]+` capture: a single optional dot splits integer and
fraction; `"."` alone or a second dot gives NaN (modelled as `none`). -/
def jsNum (s : List Char) : Option ℚ :=
  let ip := s.takeWhile (fun c => !(c == '.'))
  let rest := s.drop ip.length
  match rest with
  | [] => some ((digitsVal s : ℚ))
  | _ :: fr =>
    if fr.contains '.' then none
    else if ip.isEmpty && fr.isEmpty then none
    else some ((digitsVal ip : ℚ) + (digitsVal fr : ℚ) / (10 : ℚ) ^ fr.length)

/-- JS `s.charCodeAt(0)` compared against small integer codes: on the empty
string it is NaN, which fails every equality test just as code 0 does. -/
def headCharCode : List Char → ℕ
  | [] => 0
  | c :: _ => c.toNat

/- ── The Process record and parseProcessLine (src/lib.ts) ─────────────────── -/

structure Process where
  pid : ℕ
  ppid : ℕ
  cpu : Option ℚ
  mem : Option ℚ
  stat : List Char
  tty : List Char
  command : List Char
deriving DecidableEq

/-- parseProcessLine from src/lib.ts: reject the empty line, run PS_REGEX,
apply the daemon filter (keep when tty is the "??" sentinel or the status
first char code is S=83, s=115 or I=73), then build the record from the
seven captures. -/
def parseProcessLine (line : List Char) : Option Process :=
  if line.length = 0 then none
  else
    match matchSeq PS_REGEX line with
    | some [m1, m2, m3, m4, m5, m6, m7] =>
      if m6 ≠ ['?', '?'] ∧ headCharCode m5 ≠ 83 ∧ headCharCode m5 ≠ 115 ∧
          headCharCode m5 ≠ 73 then none
      else
        some { pid := digitsVal m1, ppid := digitsVal m2, cpu := jsNum m3,
               mem := jsNum m4, stat := m5, tty := m6, command := m7 }
    | _ => none

/-- statLabel from src/lib.ts: switch on charCodeAt(0); unknown first
characters (including the empty string, whose charCodeAt is NaN) return the
raw status string. -/
def statLabel (s : List Char) : List Char :=
  match s.head? with
  | some c =>
    if c.toNat = 82 then ['R', 'u', 'n', 'n', 'i', 'n', 'g']
    else if c.toNat = 83 then ['S', 'l', 'e', 'e', 'p', 'i', 'n', 'g']
    else if c.toNat = 68 then ['D', 'i', 's', 'k']
    else if c.toNat = 84 then ['S', 't', 'o', 'p', 'p', 'e', 'd']
    else if c.toNat = 90 then ['Z', 'o', 'm', 'b', 'i', 'e']
    else if c.toNat = 73 then ['I', 'd', 'l', 'e']
    else s
  | none => s

/- ── A canonical grammar-conforming line, built from its fields ───────────── -/

/-- A run of `n` ASCII spaces. -/
def sp (n : ℕ) : List Char := List.replicate n ' '

/-- A ps output line assembled from its twelve positional fields, separated
by arbitrary runs of spaces (`w0` leading, `w1`–`w11` between fields):
pid, ppid, cpu%, mem%, stat, tty, then the five lstart fields consumed but
not captured by PS_REGEX, then the trailing command. -/
def psLine (w0 w1 w2 w3 w4 w5 w6 w7 w8 w9 w10 w11 : ℕ)
    (pid ppid cpus mems stat tty dow mon day time year cmd : List Char) :
    List Char :=
  sp w0 ++ (pid ++ (sp w1 ++ (ppid ++ (sp w2 ++ (cpus ++ (sp w3 ++ (mems ++
    (sp w4 ++ (stat ++ (sp w5 ++ (tty ++ (sp w6 ++ (dow ++ (sp w7 ++ (mon ++
    (sp w8 ++ (day ++ (sp w9 ++ (time ++ (sp w10 ++ (year ++
    (sp w11 ++ cmd))))))))))))))))))))))

/- ── Sort engine (src/lib.ts sortProcs) ───────────────────────────────────────
`Array.prototype.sort` with a comparator is a stable sort ordered by the
comparator's sign (ECMAScript SortCompare; a NaN comparator result counts
as +0).  A stable sorted permutation is unique, so the engine is modelled
by a stable insertion sort parameterised by the comparator. -/

inductive SortField
  | pid | cpu | mem | status | command
deriving DecidableEq, BEq, Inhabited

/-- sortFields from src/lib.ts. -/
def sortFields : List SortField :=
  [SortField.pid, SortField.cpu, SortField.mem, SortField.status, SortField.command]

/-- Sign of JS `localeCompare`, modelled locale-naively as code-point
lexicographic comparison (the source relies only on the sign). -/
def cmpStr : List Char → List Char → ℤ
  | [], [] => 0
  | [], _ :: _ => -1
  | _ :: _, [] => 1
  | a :: as, b :: bs =>
    if a.toNat < b.toNat then -1
    else if b.toNat < a.toNat then 1
    else cmpStr as bs

/-- Comparator value `a - b` on cpu/mem fields; any NaN operand makes the
JS subtraction NaN, which SortCompare coerces to +0. -/
def cmpNum (x y : Option ℚ) : ℚ :=
  match x, y with
  | some a, some b => a - b
  | _, _ => 0

/-- The per-field comparator of sortProcs (the `switch (sortBy)` body). -/
def cmpField : SortField → Process → Process → ℚ
  | SortField.pid, a, b => (a.pid : ℚ) - (b.pid : ℚ)
  | SortField.cpu, a, b => cmpNum a.cpu b.cpu
  | SortField.mem, a, b => cmpNum a.mem b.mem
  | SortField.status, a, b => ((cmpStr a.stat b.stat : ℤ) : ℚ)
  | SortField.command, a, b => ((cmpStr a.command b.command : ℤ) : ℚ)

/-- The full comparator passed to sort: `sortAsc ? v : -v`. -/
def jsComparator (f : SortField) (asc : Bool) (a b : Process) : ℚ :=
  let v := cmpField f a b
  if asc then v else -v

/-- Stable insertion of `x` coming after all earlier elements: `x` passes an
element `y` already in place only when the comparator says `x` is strictly
after `y` is not required, i.e. `x` stays before `y` iff `cmp x y ≤ 0`. -/
def insertCmp (cmp : Process → Process → ℚ) (x : Process) :
    List Process → List Process
  | [] => [x]
  | y :: ys => if cmp x y ≤ 0 then x :: y :: ys else y :: insertCmp cmp x ys

/-- Stable sort by a comparator (the unique stable sorted permutation,
matching the JS engine's stable sort). -/
def isortCmp (cmp : Process → Process → ℚ) : List Process → List Process
  | [] => []
  | x :: xs => insertCmp cmp x (isortCmp cmp xs)

/-- sortProcs from src/lib.ts (value-level; the in-place mutation of the JS
array is immaterial for the returned sequence). -/
def sortProcs (procs : List Process) (sortBy : SortField) (sortAsc : Bool) :
    List Process :=
  isortCmp (jsComparator sortBy sortAsc) procs

/-- The sort-cycling step of the keypress handler (src/index.ts, case "s"):
advance through sortFields wrapping modulo length, then force the direction
from the new field. -/
def cycleSort (sortBy : SortField) : SortField × Bool :=
  let i := sortFields.indexOf sortBy
  let sortBy2 := sortFields.getD ((i + 1) % sortFields.length) SortField.pid
  (sortBy2, sortBy2 == SortField.pid || sortBy2 == SortField.command)

/- ── Filter engine (the query filter inside refresh, src/index.ts) ────────── -/

/-- JS `String.prototype.startsWith` on char lists. -/
def startsWithL : List Char → List Char → Bool
  | _, [] => true
  | [], _ :: _ => false
  | c :: cs, d :: ds => c == d && startsWithL cs ds

/-- JS `String.prototype.includes`: the needle occurs contiguously. -/
def jsIncludes : List Char → List Char → Bool
  | [], needle => needle.isEmpty
  | c :: rest, needle => startsWithL (c :: rest) needle || jsIncludes rest needle

/-- JS `String.prototype.toLowerCase`, restricted to the ASCII mapping
relevant to the source's inputs. -/
def lowerL (s : List Char) : List Char := s.map Char.toLower

/-- JS `String(pid)`: the decimal representation. -/
def natDecimal (n : ℕ) : List Char := (Nat.repr n).data

/-- The match predicate of the refresh filter (src/index.ts lines 359-364):
lowercased command, decimal pid string, or lowercased status label contains
the lowercased query `f`. -/
def procMatches (f : List Char) (p : Process) : Bool :=
  jsIncludes (lowerL p.command) f || jsIncludes (natDecimal p.pid) f ||
    jsIncludes (lowerL (statLabel p.stat)) f

/-- The filter step of refresh: an empty query string is falsy in JS, so the
sorted list is passed through unchanged; otherwise filter by `procMatches`
with the lowercased query. -/
def filterStep (filt : List Char) (l : List Process) : List Process :=
  if filt = [] then l else l.filter (procMatches (lowerL filt))

/- ── View state machine (src/index.ts main) ───────────────────────────────── -/

inductive ActionKind
  | kill | term | restart
deriving DecidableEq

/-- The pending confirmation captured by the K/t/r cases. -/
structure ConfirmInfo where
  pid : ℕ
  cmd : List Char
  action : ActionKind
deriving DecidableEq

/-- A keypress as delivered to the handler: the key name, the printable
sequence, and modifier flags (the fields of key the source consults). -/
structure KeyEvent where
  name : List Char
  sequence : List Char
  ctrl : Bool
  meta : Bool
deriving DecidableEq

/-- External calls the handler fires (signal/spawn of the action dispatch,
the refresh it requests, process exit). -/
inductive Effect
  | signal (sig : ℤ) (pid : ℕ)
  | spawnShell (cmd : List Char)
  | requestRefresh
  | quit
deriving DecidableEq

/-- The mutable view state owned by main: the displayed list and the
selection/scroll/filter/sort/confirmation variables. -/
structure UIState where
  displayed : List Process
  selected : ℤ
  scrollOffset : ℤ
  viewportH : ℤ
  filter : List Char
  filtering : Bool
  sortBy : SortField
  sortAsc : Bool
  confirm : Option ConfirmInfo
deriving DecidableEq

/-- clampScroll from src/index.ts: clamp scrollOffset into
`[0, max 0 (length - viewportH)]` (two sequential JS if statements). -/
def clampScroll (st : UIState) : UIState :=
  let maxOffset : ℤ := max 0 ((st.displayed.length : ℤ) - st.viewportH)
  let so := if maxOffset < st.scrollOffset then maxOffset else st.scrollOffset
  let so2 := if so < 0 then 0 else so
  { st with scrollOffset := so2 }

/-- ensureVisible from src/index.ts: pull the scroll offset to keep the
selected row inside the viewport, then clamp. -/
def ensureVisible (st : UIState) : UIState :=
  let so :=
    if st.selected < st.scrollOffset then st.selected
    else if st.scrollOffset + st.viewportH ≤ st.selected then
      st.selected - st.viewportH + 1
    else st.scrollOffset
  clampScroll { st with scrollOffset := so }

/-- JS `displayed[selected]`: `undefined` (here `none`) outside the array
bounds, e.g. on an empty list or a negative index. -/
def selRecord (st : UIState) : Option Process :=
  if h : 0 ≤ st.selected ∧ st.selected.toNat < st.displayed.length then
    some (st.displayed.get ⟨st.selected.toNat, h.2⟩)
  else none

/-- The keypress handler of src/index.ts, as a pure transition returning the
new state and the external effects fired.  The three branches mirror the
source: confirm mode first, then filter-editing mode, then the normal-mode
switch on key.name.  A refresh the handler awaits is emitted as
`Effect.requestRefresh` (the fetch itself is external). -/
def handleKey (st : UIState) (key : KeyEvent) : UIState × List Effect :=
  match st.confirm with
  | some cf =>
    if key.name = ['y'] then
      let sig : ℤ := if cf.action = ActionKind.kill then -9 else -15
      ({ st with confirm := none },
        Effect.signal sig cf.pid ::
          ((if cf.action = ActionKind.restart then [Effect.spawnShell cf.cmd]
            else []) ++ [Effect.requestRefresh]))
    else ({ st with confirm := none }, [])
  | none =>
    if st.filtering then
      if key.name = ['r', 'e', 't', 'u', 'r', 'n'] then
        ({ st with filtering := false }, [Effect.requestRefresh])
      else if key.name = ['e', 's', 'c', 'a', 'p', 'e'] then
        ({ st with filtering := false, filter := [] }, [Effect.requestRefresh])
      else if key.name = ['b', 'a', 'c', 'k', 's', 'p', 'a', 'c', 'e'] then
        ({ st with filter := st.filter.dropLast }, [Effect.requestRefresh])
      else if key.sequence.length = 1 && !key.ctrl && !key.meta then
        ({ st with filter := st.filter ++ key.sequence }, [Effect.requestRefresh])
      else (st, [])
    else
      let N : ℤ := (st.displayed.length : ℤ)
      if key.name = ['q'] then (st, [Effect.quit])
      else if key.name = ['j'] ∨ key.name = ['d', 'o', 'w', 'n'] then
        (if st.selected < N - 1 then
          ensureVisible { st with selected := st.selected + 1 }
        else st, [])
      else if key.name = ['k'] ∨ key.name = ['u', 'p'] then
        (if 0 < st.selected then
          ensureVisible { st with selected := st.selected - 1 }
        else st, [])
      else if key.name = ['d'] then
        (ensureVisible
          { st with selected := min (N - 1) (st.selected + st.viewportH / 2) }, [])
      else if key.name = ['u'] then
        (ensureVisible
          { st with selected := max 0 (st.selected - st.viewportH / 2) }, [])
      else if key.name = ['g'] then
        (ensureVisible { st with selected := 0 }, [])
      else if key.name = ['G'] then
        (ensureVisible { st with selected := max 0 (N - 1) }, [])
      else if key.name = ['/'] then ({ st with filtering := true }, [])
      else if key.name = ['s'] then
        let sb := cycleSort st.sortBy
        ({ st with sortBy := sb.1, sortAsc := sb.2 }, [Effect.requestRefresh])
      else if key.name = ['S'] then
        ({ st with sortAsc := !st.sortAsc }, [Effect.requestRefresh])
      else if key.name = ['K'] then
        match selRecord st with
        | some p =>
          ({ st with confirm := some ⟨p.pid, p.command, ActionKind.kill⟩ }, [])
        | none => (st, [])
      else if key.name = ['t'] then
        match selRecord st with
        | some p =>
          ({ st with confirm := some ⟨p.pid, p.command, ActionKind.term⟩ }, [])
        | none => (st, [])
      else if key.name = ['r'] then
        match selRecord st with
        | some p =>
          ({ st with confirm := some ⟨p.pid, p.command, ActionKind.restart⟩ }, [])
        | none => (st, [])
      else (st, [])

/- ── Refresh cycle and its failure behaviour (src/index.ts) ───────────────── -/

/-- One refresh cycle given the outcome of the getProcesses fetch (`none`
when it throws).  refresh has no catch: on a fetch failure nothing after
the await runs — displayed, selected and scrollOffset keep their previous
values — and the second component `true` records that the error escapes
refresh (only the `finally` clearing the refreshing flag runs).  On success
the new list is sorted with the current sort state, then filtered by the
current query, the selection is clamped onto the shorter list, and
renderRows re-derives the scroll offset via ensureVisible. -/
def refreshStep (fetched : Option (List Process)) (st : UIState) :
    UIState × Bool :=
  match fetched with
  | none => (st, true)
  | some procs =>
    let sorted := sortProcs procs st.sortBy st.sortAsc
    let displayed2 := filterStep st.filter sorted
    let sel :=
      if (displayed2.length : ℤ) ≤ st.selected then
        max 0 ((displayed2.length : ℤ) - 1)
      else st.selected
    (ensureVisible { st with displayed := displayed2, selected := sel }, false)

inductive Outcome
  | exited (code : ℕ)
  | running (st : UIState)
deriving DecidableEq

/-- The startup path of main: `await refresh()` before the interval starts.
A rejection of that first refresh propagates out of main into
`main().catch(err => { console.error(err); process.exit(1) })`. -/
def startupRefresh (fetched : Option (List Process)) (st : UIState) : Outcome :=
  match refreshStep fetched st with
  | (_, true) => Outcome.exited 1
  | (st2, false) => Outcome.running st2

/- ── Segment decomposition used to reason about matchSeq on psLine ────────── -/

/-- One atom of the pattern together with the run of the subject string it
is meant to consume. -/
structure Seg where
  cls : Char → Bool
  plus : Bool
  cap : Bool
  tok : List Char

/-- The atoms of a segment list. -/
def segItems (segs : List Seg) : List RItem :=
  segs.map (fun sg => ⟨sg.cls, sg.plus, sg.cap⟩)

/-- The subject string of a segment list. -/
def segStr (segs : List Seg) : List Char :=
  segs.foldr (fun sg acc => sg.tok ++ acc) []

/-- The captures of a segment list: the runs of the capturing atoms. -/
def segCaps (segs : List Seg) : List (List Char) :=
  (segs.filter (fun sg => sg.cap)).map Seg.tok

/-- Well-formedness of a segment decomposition: each run is drawn from its
atom's class, runs of `C+` atoms are nonempty, and the character following
each run is outside the atom's class (so the greedy run stops exactly
there). -/
def SegsOK : List Seg → Prop
  | [] => True
  | sg :: rest =>
    (∀ c ∈ sg.tok, sg.cls c = true) ∧
    (sg.plus = true → sg.tok ≠ []) ∧
    (∀ c, (segStr rest).head? = some c → sg.cls c = false) ∧
    SegsOK rest

/-- The segment decomposition of psLine against PS_REGEX. -/
def psSegs (w0 w1 w2 w3 w4 w5 w6 w7 w8 w9 w10 w11 : ℕ)
    (pid ppid cpus mems stat tty dow mon day time year cmd : List Char) :
    List Seg := [
  ⟨isJsSpace, false, false, sp w0⟩,
  ⟨isDigitC, true, true, pid⟩,
  ⟨isJsSpace, true, false, sp w1⟩,
  ⟨isDigitC, true, true, ppid⟩,
  ⟨isJsSpace, true, false, sp w2⟩,
  ⟨isDigitDotC, true, true, cpus⟩,
  ⟨isJsSpace, true, false, sp w3⟩,
  ⟨isDigitDotC, true, true, mems⟩,
  ⟨isJsSpace, true, false, sp w4⟩,
  ⟨fun c => !isJsSpace c, true, true, stat⟩,
  ⟨isJsSpace, true, false, sp w5⟩,
  ⟨fun c => !isJsSpace c, true, true, tty⟩,
  ⟨isJsSpace, true, false, sp w6⟩,
  ⟨isWordC, true, false, dow⟩,
  ⟨isJsSpace, true, false, sp w7⟩,
  ⟨isWordC, true, false, mon⟩,
  ⟨isJsSpace, true, false, sp w8⟩,
  ⟨isDigitC, true, false, day⟩,
  ⟨isJsSpace, true, false, sp w9⟩,
  ⟨isDigitColonC, true, false, time⟩,
  ⟨isJsSpace, true, false, sp w10⟩,
  ⟨isDigitC, true, false, year⟩,
  ⟨isJsSpace, true, false, sp w11⟩,
  ⟨isDotC, true, true, cmd⟩
]

/- ── The navigation invariant claimed for the view state ──────────────────── -/

/-- The view-state bounds of the spec: the selection lies in the displayed
list (index 0 for an empty list), the scroll offset lies in
`[0, max 0 (N - viewportH)]`, and the selection is inside the viewport. -/
def NavInv (st : UIState) : Prop :=
  (if st.displayed.length = 0 then st.selected = 0
   else 0 ≤ st.selected ∧ st.selected ≤ (st.displayed.length : ℤ) - 1) ∧
  0 ≤ st.scrollOffset ∧
  st.scrollOffset ≤ max 0 ((st.displayed.length : ℤ) - st.viewportH) ∧
  st.scrollOffset ≤ st.selected ∧
  st.selected ≤ st.scrollOffset + st.viewportH - 1

/-- The key names the normal-mode navigation cases accept. -/
def navKeyNames : List (List Char) :=
  [['j'], ['d', 'o', 'w', 'n'], ['k'], ['u', 'p'], ['d'], ['u'], ['g'], ['G']]

/- ── Lemmas about the greedy matcher ──────────────────────────────────────── -/

/-- A maximal class run: takeWhile stops exactly at the end of `tok` when
everything in `tok` is in the class and the next character is not. -/
theorem psTakeWhile (cls : Char → Bool) (tok s : List Char)
    (hall : ∀ c ∈ tok, cls c = true)
    (hhead : ∀ c, s.head? = some c → cls c = false) :
    (tok ++ s).takeWhile cls = tok := by
  induction tok with
  | nil =>
    cases s with
    | nil => rfl
    | cons c cs => simp [List.takeWhile_cons, hhead c rfl]
  | cons t ts ih =>
    simp only [List.cons_append, List.takeWhile_cons, hall t (List.mem_cons_self t ts),
      if_true]
    rw [ih (fun c hc => hall c (List.mem_cons_of_mem t hc))]

/-- Success composition for one atom: if the rest of the pattern matches the
rest of the string, the greedy atom consumes exactly its maximal run `tok`
(the longest run is tried first and succeeds, so no backtracking occurs). -/
theorem matchSeq_cons_of (cls : Char → Bool) (pl cp : Bool) (items : List RItem)
    (tok s : List Char) (caps : List (List Char))
    (hall : ∀ c ∈ tok, cls c = true)
    (hne : pl = true → tok ≠ [])
    (hhead : ∀ c, s.head? = some c → cls c = false)
    (hrest : matchSeq items s = some caps) :
    matchSeq (⟨cls, pl, cp⟩ :: items) (tok ++ s) =
      some (if cp then tok :: caps else caps) := by
  have htw : (tok ++ s).takeWhile cls = tok := psTakeWhile cls tok s hall hhead
  cases tok with
  | nil =>
    have hpl : pl = false := by
      cases pl
      · rfl
      · exact absurd rfl (hne rfl)
    subst hpl
    simp only [List.nil_append] at htw
    simp [matchSeq, htw, tryLens, hrest]
  | cons t ts =>
    simp only [matchSeq, htw, List.length_cons]
    have hlo : ¬ (ts.length + 1 < if pl = true then 1 else 0) := by
      cases pl <;> simp
    have hdrop : ((t :: ts) ++ s).drop (ts.length + 1) = s :=
      List.drop_left' (by simp)
    have htake : ((t :: ts) ++ s).take (ts.length + 1) = t :: ts :=
      List.take_left' (by simp)
    simp only [tryLens, hlo, if_false, hdrop, hrest, htake]

/-- Matching a well-formed segment decomposition succeeds and captures
exactly the runs of the capturing atoms. -/
theorem matchSeq_of_segs :
    ∀ segs : List Seg, SegsOK segs →
      matchSeq (segItems segs) (segStr segs) = some (segCaps segs) := by
  intro segs
  induction segs with
  | nil => intro _; rfl
  | cons sg rest ih =>
    intro h
    obtain ⟨h1, h2, h3, h4⟩ := h
    have hmain := matchSeq_cons_of sg.cls sg.plus sg.cap (segItems rest) sg.tok
      (segStr rest) (segCaps rest) h1 h2 h3 (ih h4)
    by_cases hcap : sg.cap = true
    · simpa [segItems, segStr, segCaps, List.filter_cons, hcap] using hmain
    · have hcap2 : sg.cap = false := by
        cases hsg : sg.cap
        · rfl
        · exact absurd hsg hcap
      simpa [segItems, segStr, segCaps, List.filter_cons, hcap2] using hmain

/- ── head?-shape helpers for the segment side conditions ──────────────────── -/

/-- A nonempty space run starts with a space. -/
theorem sp_head (w : ℕ) (hw : 1 ≤ w) (x : List Char) :
    (sp w ++ x).head? = some ' ' := by
  cases w with
  | zero => omega
  | succ n => simp [sp, List.replicate_succ]

/-- The head of `tok ++ x` is an element of a nonempty `tok`. -/
theorem head_some_mem (tok x : List Char) (c : Char)
    (hc : (tok ++ x).head? = some c) (hne : tok ≠ []) : c ∈ tok := by
  cases tok with
  | nil => exact absurd rfl hne
  | cons t ts =>
    simp only [List.cons_append, List.head?_cons, Option.some.injEq] at hc
    subst hc
    exact List.mem_cons_self t ts

/-- Segment side condition after a token run: the class fails on the head
because it fails on every character of the following token. -/
theorem head_cls_false (cls : Char → Bool) (tok x : List Char) (hne : tok ≠ [])
    (h : ∀ c ∈ tok, cls c = false) :
    ∀ c, (tok ++ x).head? = some c → cls c = false :=
  fun c hc => h c (head_some_mem tok x c hc hne)

/-- Segment side condition after a space run: the class fails on the head
because it fails on the space character. -/
theorem head_cls_false_sp (cls : Char → Bool) (w : ℕ) (x : List Char)
    (hw : 1 ≤ w) (hsp : cls ' ' = false) :
    ∀ c, (sp w ++ x).head? = some c → cls c = false := by
  intro c hc
  rw [sp_head w hw x] at hc
  cases hc
  exact hsp

/- ── Character-class separation lemmas ────────────────────────────────────── -/

/-- Digits are not JS whitespace. -/
theorem notSpace_of_digit {c : Char} (h : isDigitC c = true) :
    isJsSpace c = false := by
  simp only [isDigitC, decide_eq_true_eq] at h
  simp only [isJsSpace, decide_eq_false_iff_not]
  omega

/-- Digit-or-dot characters are not JS whitespace. -/
theorem notSpace_of_digitDot {c : Char} (h : isDigitDotC c = true) :
    isJsSpace c = false := by
  simp only [isDigitDotC, decide_eq_true_eq] at h
  simp only [isJsSpace, decide_eq_false_iff_not]
  omega

/-- Digit-or-colon characters are not JS whitespace. -/
theorem notSpace_of_digitColon {c : Char} (h : isDigitColonC c = true) :
    isJsSpace c = false := by
  simp only [isDigitColonC, decide_eq_true_eq] at h
  simp only [isJsSpace, decide_eq_false_iff_not]
  omega

/-- Word characters are not JS whitespace. -/
theorem notSpace_of_word {c : Char} (h : isWordC c = true) :
    isJsSpace c = false := by
  simp only [isWordC, decide_eq_true_eq] at h
  simp only [isJsSpace, decide_eq_false_iff_not]
  omega

/-- Every character of a space run is JS whitespace. -/
theorem sp_all (w : ℕ) : ∀ c ∈ sp w, isJsSpace c = true := by
  intro c hc
  have h := List.eq_of_mem_replicate hc
  subst h
  decide

/-- A space run of positive width is nonempty. -/
theorem sp_ne (w : ℕ) (hw : 1 ≤ w) : sp w ≠ [] := by
  simp only [sp, ne_eq, List.replicate_eq_nil_iff]
  omega

/-- PS_REGEX matches a psLine assembled from well-formed fields, capturing
exactly pid, ppid, cpu, mem, stat, tty and the command. -/
theorem psLine_match
    (w0 w1 w2 w3 w4 w5 w6 w7 w8 w9 w10 w11 : ℕ)
    (pid ppid cpus mems stat tty dow mon day time year cmd : List Char)
    (hw1 : 1 ≤ w1) (hw2 : 1 ≤ w2) (hw3 : 1 ≤ w3) (hw4 : 1 ≤ w4) (hw5 : 1 ≤ w5)
    (hw6 : 1 ≤ w6) (hw7 : 1 ≤ w7) (hw8 : 1 ≤ w8) (hw9 : 1 ≤ w9)
    (hw10 : 1 ≤ w10) (hw11 : 1 ≤ w11)
    (hpidne : pid ≠ []) (hpid : ∀ c ∈ pid, isDigitC c = true)
    (hppidne : ppid ≠ []) (hppid : ∀ c ∈ ppid, isDigitC c = true)
    (hcpune : cpus ≠ []) (hcpu : ∀ c ∈ cpus, isDigitDotC c = true)
    (hmemne : mems ≠ []) (hmem : ∀ c ∈ mems, isDigitDotC c = true)
    (hstatne : stat ≠ []) (hstat : ∀ c ∈ stat, isJsSpace c = false)
    (httyne : tty ≠ []) (htty : ∀ c ∈ tty, isJsSpace c = false)
    (hdowne : dow ≠ []) (hdow : ∀ c ∈ dow, isWordC c = true)
    (hmonne : mon ≠ []) (hmon : ∀ c ∈ mon, isWordC c = true)
    (hdayne : day ≠ []) (hday : ∀ c ∈ day, isDigitC c = true)
    (htimene : time ≠ []) (htime : ∀ c ∈ time, isDigitColonC c = true)
    (hyearne : year ≠ []) (hyear : ∀ c ∈ year, isDigitC c = true)
    (hcmdne : cmd ≠ []) (hcmd : ∀ c ∈ cmd, isDotC c = true)
    (hcmdhead : ∀ c, cmd.head? = some c → isJsSpace c = false) :
    matchSeq PS_REGEX
        (psLine w0 w1 w2 w3 w4 w5 w6 w7 w8 w9 w10 w11
          pid ppid cpus mems stat tty dow mon day time year cmd) =
      some [pid, ppid, cpus, mems, stat, tty, cmd] := by
  have hok : SegsOK (psSegs w0 w1 w2 w3 w4 w5 w6 w7 w8 w9 w10 w11
      pid ppid cpus mems stat tty dow mon day time year cmd) := by
    refine ⟨sp_all w0, fun h => absurd h (by decide : ¬ false = true),
      head_cls_false _ _ _ hpidne (fun c hc => notSpace_of_digit (hpid c hc)),
      hpid, fun _ => hpidne, head_cls_false_sp isDigitC w1 _ hw1 (by decide),
      sp_all w1, fun _ => sp_ne w1 hw1,
      head_cls_false _ _ _ hppidne (fun c hc => notSpace_of_digit (hppid c hc)),
      hppid, fun _ => hppidne, head_cls_false_sp isDigitC w2 _ hw2 (by decide),
      sp_all w2, fun _ => sp_ne w2 hw2,
      head_cls_false _ _ _ hcpune (fun c hc => notSpace_of_digitDot (hcpu c hc)),
      hcpu, fun _ => hcpune, head_cls_false_sp isDigitDotC w3 _ hw3 (by decide),
      sp_all w3, fun _ => sp_ne w3 hw3,
      head_cls_false _ _ _ hmemne (fun c hc => notSpace_of_digitDot (hmem c hc)),
      hmem, fun _ => hmemne, head_cls_false_sp isDigitDotC w4 _ hw4 (by decide),
      sp_all w4, fun _ => sp_ne w4 hw4,
      head_cls_false _ _ _ hstatne hstat,
      fun c hc => by simp [hstat c hc], fun _ => hstatne,
      head_cls_false_sp (fun c => !isJsSpace c) w5 _ hw5 (by decide),
      sp_all w5, fun _ => sp_ne w5 hw5,
      head_cls_false _ _ _ httyne htty,
      fun c hc => by simp [htty c hc], fun _ => httyne,
      head_cls_false_sp (fun c => !isJsSpace c) w6 _ hw6 (by decide),
      sp_all w6, fun _ => sp_ne w6 hw6,
      head_cls_false _ _ _ hdowne (fun c hc => notSpace_of_word (hdow c hc)),
      hdow, fun _ => hdowne, head_cls_false_sp isWordC w7 _ hw7 (by decide),
      sp_all w7, fun _ => sp_ne w7 hw7,
      head_cls_false _ _ _ hmonne (fun c hc => notSpace_of_word (hmon c hc)),
      hmon, fun _ => hmonne, head_cls_false_sp isWordC w8 _ hw8 (by decide),
      sp_all w8, fun _ => sp_ne w8 hw8,
      head_cls_false _ _ _ hdayne (fun c hc => notSpace_of_digit (hday c hc)),
      hday, fun _ => hdayne, head_cls_false_sp isDigitC w9 _ hw9 (by decide),
      sp_all w9, fun _ => sp_ne w9 hw9,
      head_cls_false _ _ _ htimene (fun c hc => notSpace_of_digitColon (htime c hc)),
      htime, fun _ => htimene, head_cls_false_sp isDigitColonC w10 _ hw10 (by decide),
      sp_all w10, fun _ => sp_ne w10 hw10,
      head_cls_false _ _ _ hyearne (fun c hc => notSpace_of_digit (hyear c hc)),
      hyear, fun _ => hyearne, head_cls_false_sp isDigitC w11 _ hw11 (by decide),
      sp_all w11, fun _ => sp_ne w11 hw11,
      ?_,
      hcmd, fun _ => hcmdne, ?_, trivial⟩
    · intro c hc
      apply hcmdhead
      simpa [segStr] using hc
    · intro c hc
      simp [segStr] at hc
  have h := matchSeq_of_segs _ hok
  have hitems : segItems (psSegs w0 w1 w2 w3 w4 w5 w6 w7 w8 w9 w10 w11
      pid ppid cpus mems stat tty dow mon day time year cmd) = PS_REGEX := rfl
  have hcaps : segCaps (psSegs w0 w1 w2 w3 w4 w5 w6 w7 w8 w9 w10 w11
      pid ppid cpus mems stat tty dow mon day time year cmd) =
      [pid, ppid, cpus, mems, stat, tty, cmd] := rfl
  have hstr : segStr (psSegs w0 w1 w2 w3 w4 w5 w6 w7 w8 w9 w10 w11
      pid ppid cpus mems stat tty dow mon day time year cmd) =
      psLine w0 w1 w2 w3 w4 w5 w6 w7 w8 w9 w10 w11
        pid ppid cpus mems stat tty dow mon day time year cmd := by
    simp [psSegs, segStr, psLine]
  rw [hitems, hcaps, hstr] at h
  exact h

/- ── Characterising parseProcessLine on a successful regex match ──────────── -/

/-- On a line where PS_REGEX matches with captures m1–m7, parseProcessLine
is exactly the daemon filter applied to the record built from the captures. -/
theorem parseProcessLine_eq_of_match (line m1 m2 m3 m4 m5 m6 m7 : List Char)
    (hm : matchSeq PS_REGEX line = some [m1, m2, m3, m4, m5, m6, m7]) :
    parseProcessLine line =
      if m6 ≠ ['?', '?'] ∧ headCharCode m5 ≠ 83 ∧ headCharCode m5 ≠ 115 ∧
          headCharCode m5 ≠ 73 then none
      else
        some { pid := digitsVal m1, ppid := digitsVal m2, cpu := jsNum m3,
               mem := jsNum m4, stat := m5, tty := m6, command := m7 } := by
  have hne : line ≠ [] := by
    intro h
    subst h
    rw [show matchSeq PS_REGEX [] = none from rfl] at hm
    cases hm
  have hlen : ¬ line.length = 0 := by
    simpa [List.length_eq_zero] using hne
  simp only [parseProcessLine, hm, if_neg hlen]

/- ── Claim C2 ─────────────────────────────────────────────────────────────── -/

/-- C2: for every grammar-conforming line (a line PS_REGEX matches, with
stat capture m5 and tty capture m6), parseProcessLine keeps the record if
and only if the terminal field is "??" or the first character of the status
field is S (83), s (115) or I (73); all other records are dropped. -/
theorem c2_background_policy (line m1 m2 m3 m4 m5 m6 m7 : List Char)
    (hm : matchSeq PS_REGEX line = some [m1, m2, m3, m4, m5, m6, m7]) :
    (parseProcessLine line).isSome = true ↔
      (m6 = ['?', '?'] ∨ headCharCode m5 = 83 ∨ headCharCode m5 = 115 ∨
        headCharCode m5 = 73) := by
  rw [parseProcessLine_eq_of_match line m1 m2 m3 m4 m5 m6 m7 hm]
  split_ifs with h
  · simp only [Option.isSome_none, Bool.false_eq_true, false_iff]
    obtain ⟨h1, h2, h3, h4⟩ := h
    tauto
  · simp only [Option.isSome_some, true_iff]
    push_neg at h
    by_cases h6 : m6 = ['?', '?']
    · exact Or.inl h6
    · rcases Decidable.em (headCharCode m5 = 83) with h83 | h83
      · exact Or.inr (Or.inl h83)
      · rcases Decidable.em (headCharCode m5 = 115) with h115 | h115
        · exact Or.inr (Or.inr (Or.inl h115))
        · exact Or.inr (Or.inr (Or.inr (h h6 h83 h115)))

/-- Witness for C2 at a concrete conforming line with a real terminal and a
sleeping status: the record is kept. -/
theorem c2_background_policy_witness :
    (parseProcessLine (psLine 0 1 1 1 1 1 1 1 1 1 1 1
        ['1'] ['2'] ['3'] ['4'] ['S'] ['t'] ['a'] ['b'] ['5'] ['6'] ['7']
        ['x'])).isSome = true := by
  have h := c2_background_policy
    (psLine 0 1 1 1 1 1 1 1 1 1 1 1
      ['1'] ['2'] ['3'] ['4'] ['S'] ['t'] ['a'] ['b'] ['5'] ['6'] ['7'] ['x'])
    ['1'] ['2'] ['3'] ['4'] ['S'] ['t'] ['x'] (by decide)
  exact h.mpr (Or.inr (Or.inl (by decide)))

/- ── Claim C1 ─────────────────────────────────────────────────────────────── -/

/-- C1 counterexample: the line "1 2 3 4 R t a b 5 6 7 x" conforms to the
positional field grammar (PS_REGEX matches it, capturing all seven fields),
yet parseProcessLine returns null rather than a record, because the record
has a real terminal (t) and a running status (R) and is dropped by the
daemon filter.  This refutes the claim that every grammar-conforming line
yields a round-tripped record. -/
theorem c1_counterexample :
    matchSeq PS_REGEX (psLine 0 1 1 1 1 1 1 1 1 1 1 1
        ['1'] ['2'] ['3'] ['4'] ['R'] ['t'] ['a'] ['b'] ['5'] ['6'] ['7']
        ['x']) =
      some [['1'], ['2'], ['3'], ['4'], ['R'], ['t'], ['x']] ∧
    parseProcessLine (psLine 0 1 1 1 1 1 1 1 1 1 1 1
        ['1'] ['2'] ['3'] ['4'] ['R'] ['t'] ['a'] ['b'] ['5'] ['6'] ['7']
        ['x']) = none := by
  constructor <;> decide

/-- C1 (amended): a grammar-conforming line that also satisfies the
background policy (terminal "??", or status first-char in {S, s, I})
round-trips all seven captured fields into the returned record exactly
(pid/ppid/cpu/mem as numbers, stat/tty/command as given); the empty line
returns null; every line PS_REGEX rejects returns null.  No partial record
is ever returned. -/
theorem c1_amended :
    (∀ (w0 w1 w2 w3 w4 w5 w6 w7 w8 w9 w10 w11 : ℕ)
      (pid ppid cpus mems stat tty dow mon day time year cmd : List Char),
      1 ≤ w1 → 1 ≤ w2 → 1 ≤ w3 → 1 ≤ w4 → 1 ≤ w5 → 1 ≤ w6 → 1 ≤ w7 →
      1 ≤ w8 → 1 ≤ w9 → 1 ≤ w10 → 1 ≤ w11 →
      pid ≠ [] → (∀ c ∈ pid, isDigitC c = true) →
      ppid ≠ [] → (∀ c ∈ ppid, isDigitC c = true) →
      cpus ≠ [] → (∀ c ∈ cpus, isDigitDotC c = true) →
      mems ≠ [] → (∀ c ∈ mems, isDigitDotC c = true) →
      stat ≠ [] → (∀ c ∈ stat, isJsSpace c = false) →
      tty ≠ [] → (∀ c ∈ tty, isJsSpace c = false) →
      dow ≠ [] → (∀ c ∈ dow, isWordC c = true) →
      mon ≠ [] → (∀ c ∈ mon, isWordC c = true) →
      day ≠ [] → (∀ c ∈ day, isDigitC c = true) →
      time ≠ [] → (∀ c ∈ time, isDigitColonC c = true) →
      year ≠ [] → (∀ c ∈ year, isDigitC c = true) →
      cmd ≠ [] → (∀ c ∈ cmd, isDotC c = true) →
      (∀ c, cmd.head? = some c → isJsSpace c = false) →
      (tty = ['?', '?'] ∨ headCharCode stat = 83 ∨ headCharCode stat = 115 ∨
        headCharCode stat = 73) →
      parseProcessLine (psLine w0 w1 w2 w3 w4 w5 w6 w7 w8 w9 w10 w11
          pid ppid cpus mems stat tty dow mon day time year cmd) =
        some { pid := digitsVal pid, ppid := digitsVal ppid, cpu := jsNum cpus,
               mem := jsNum mems, stat := stat, tty := tty, command := cmd }) ∧
    parseProcessLine [] = none ∧
    (∀ line : List Char, matchSeq PS_REGEX line = none →
      parseProcessLine line = none) := by
  refine ⟨?_, rfl, ?_⟩
  · intro w0 w1 w2 w3 w4 w5 w6 w7 w8 w9 w10 w11
      pid ppid cpus mems stat tty dow mon day time year cmd
      hw1 hw2 hw3 hw4 hw5 hw6 hw7 hw8 hw9 hw10 hw11
      hpidne hpid hppidne hppid hcpune hcpu hmemne hmem hstatne hstat
      httyne htty hdowne hdow hmonne hmon hdayne hday htimene htime
      hyearne hyear hcmdne hcmd hcmdhead hpolicy
    have hm := psLine_match w0 w1 w2 w3 w4 w5 w6 w7 w8 w9 w10 w11
      pid ppid cpus mems stat tty dow mon day time year cmd
      hw1 hw2 hw3 hw4 hw5 hw6 hw7 hw8 hw9 hw10 hw11
      hpidne hpid hppidne hppid hcpune hcpu hmemne hmem hstatne hstat
      httyne htty hdowne hdow hmonne hmon hdayne hday htimene htime
      hyearne hyear hcmdne hcmd hcmdhead
    rw [parseProcessLine_eq_of_match _ pid ppid cpus mems stat tty cmd hm]
    rw [if_neg]
    intro hcon
    obtain ⟨h1, h2, h3, h4⟩ := hcon
    tauto
  · intro line h
    by_cases hl : line.length = 0
    · simp [parseProcessLine, hl]
    · simp [parseProcessLine, hl, h]

/-- Witness for C1 (amended) at a concrete line: two-space indent,
pid 42, ppid 1, cpu 2.3, mem 0.5, stat Ss, tty "??", lstart fields, and a
command containing a space; all hypotheses hold by computation. -/
theorem c1_amended_witness :
    parseProcessLine (psLine 2 3 2 2 1 2 2 1 1 1 1 1
        ['4', '2'] ['1'] ['2', '.', '3'] ['0', '.', '5'] ['S', 's']
        ['?', '?'] ['T', 'h', 'u'] ['F', 'e', 'b'] ['2', '0']
        ['1', '4', ':', '3', '0'] ['2', '0', '2', '6']
        ['/', 'b', 'i', 'n', '/', 'x', ' ', 'y']) =
      some { pid := digitsVal ['4', '2'], ppid := digitsVal ['1'],
             cpu := jsNum ['2', '.', '3'], mem := jsNum ['0', '.', '5'],
             stat := ['S', 's'], tty := ['?', '?'],
             command := ['/', 'b', 'i', 'n', '/', 'x', ' ', 'y'] } :=
  c1_amended.1 2 3 2 2 1 2 2 1 1 1 1 1
    ['4', '2'] ['1'] ['2', '.', '3'] ['0', '.', '5'] ['S', 's']
    ['?', '?'] ['T', 'h', 'u'] ['F', 'e', 'b'] ['2', '0']
    ['1', '4', ':', '3', '0'] ['2', '0', '2', '6']
    ['/', 'b', 'i', 'n', '/', 'x', ' ', 'y']
    (by decide) (by decide) (by decide) (by decide) (by decide) (by decide)
    (by decide) (by decide) (by decide) (by decide) (by decide)
    (by decide) (by decide) (by decide) (by decide) (by decide) (by decide)
    (by decide) (by decide) (by decide) (by decide) (by decide) (by decide)
    (by decide) (by decide) (by decide) (by decide) (by decide) (by decide)
    (by decide) (by decide) (by decide) (by decide) (by decide) (by decide)
    (by decide) (Or.inl rfl)

/- ── Claim C6 ─────────────────────────────────────────────────────────────── -/

/-- C6: the sort-cycle operation advances through the fixed sequence
pid → cpu → mem → status → command → pid (wrapping modulo length), and
after each advance the direction is forced: ascending exactly for pid and
command, descending for cpu, mem and status. -/
theorem c6_sort_cycle :
    cycleSort SortField.pid = (SortField.cpu, false) ∧
    cycleSort SortField.cpu = (SortField.mem, false) ∧
    cycleSort SortField.mem = (SortField.status, false) ∧
    cycleSort SortField.status = (SortField.command, true) ∧
    cycleSort SortField.command = (SortField.pid, true) := by
  decide

/- ── Claim C10 ────────────────────────────────────────────────────────────── -/

/-- C10: the human status label is determined by the first character of the
raw status code only; uppercase R, S, D, T, Z, I map to Running, Sleeping,
Disk, Stopped, Zombie, Idle, and every other first character — including
the lowercase s and i accepted by the background filter — returns the raw
status string unchanged. -/
theorem c10_status_label :
    (∀ r : List Char, statLabel ('R' :: r) = ['R', 'u', 'n', 'n', 'i', 'n', 'g']) ∧
    (∀ r : List Char,
      statLabel ('S' :: r) = ['S', 'l', 'e', 'e', 'p', 'i', 'n', 'g']) ∧
    (∀ r : List Char, statLabel ('D' :: r) = ['D', 'i', 's', 'k']) ∧
    (∀ r : List Char, statLabel ('T' :: r) = ['S', 't', 'o', 'p', 'p', 'e', 'd']) ∧
    (∀ r : List Char, statLabel ('Z' :: r) = ['Z', 'o', 'm', 'b', 'i', 'e']) ∧
    (∀ r : List Char, statLabel ('I' :: r) = ['I', 'd', 'l', 'e']) ∧
    (∀ (c : Char) (r : List Char),
      c.toNat ≠ 82 → c.toNat ≠ 83 → c.toNat ≠ 68 → c.toNat ≠ 84 →
      c.toNat ≠ 90 → c.toNat ≠ 73 → statLabel (c :: r) = c :: r) := by
  refine ⟨fun r => rfl, fun r => rfl, fun r => rfl, fun r => rfl, fun r => rfl,
    fun r => rfl, ?_⟩
  intro c r h82 h83 h68 h84 h90 h73
  simp [statLabel, h82, h83, h68, h84, h90, h73]

/-- Witness for C10: the lowercase statuses s and i, accepted by the
background filter, are returned unchanged rather than mapped to labels. -/
theorem c10_status_label_witness :
    statLabel ['s'] = ['s'] ∧ statLabel ['i', '+'] = ['i', '+'] := by
  constructor
  · exact c10_status_label.2.2.2.2.2.2 's' [] (by decide) (by decide) (by decide)
      (by decide) (by decide) (by decide)
  · exact c10_status_label.2.2.2.2.2.2 'i' ['+'] (by decide) (by decide)
      (by decide) (by decide) (by decide) (by decide)

/- ── Claim C4 ─────────────────────────────────────────────────────────────── -/

/-- C4: the filter step is the identity for the empty query, and is
idempotent for every query: filtering an already-filtered list with the
same query returns it unchanged, in order. -/
theorem c4_filter_identity_idempotent :
    (∀ l : List Process, filterStep [] l = l) ∧
    (∀ (q : List Char) (l : List Process),
      filterStep q (filterStep q l) = filterStep q l) := by
  constructor
  · intro l
    simp [filterStep]
  · intro q l
    by_cases hq : q = []
    · simp [filterStep, hq]
    · simp [filterStep, hq, List.filter_filter]

/- ── Claim C5 ─────────────────────────────────────────────────────────────── -/

/-- C5: for every record and non-empty query, the record passes the filter
iff the lowercased query is a substring of the lowercased command line, of
the decimal-string form of the pid, or of the lowercased human status label
(the glossary mapping statLabel, not the raw code). -/
theorem c5_filter_match (q : List Char) (p : Process) (l : List Process)
    (hq : q ≠ []) :
    p ∈ filterStep q l ↔
      p ∈ l ∧
        (jsIncludes (lowerL p.command) (lowerL q) = true ∨
         jsIncludes (natDecimal p.pid) (lowerL q) = true ∨
         jsIncludes (lowerL (statLabel p.stat)) (lowerL q) = true) := by
  simp [filterStep, hq, List.mem_filter, procMatches, Bool.or_eq_true, or_assoc]

/-- Witness for C5: the query "sys" matches the record for
/usr/sbin/syslogd through its command line. -/
theorem c5_filter_match_witness :
    let p : Process :=
      { pid := 123, ppid := 1, cpu := some 2, mem := some 1,
        stat := ['S', 's'], tty := ['?', '?'],
        command := ['/', 'u', 's', 'r', '/', 's', 'b', 'i', 'n', '/', 's',
          'y', 's', 'l', 'o', 'g', 'd'] }
    p ∈ filterStep ['s', 'y', 's'] [p] := by
  intro p
  exact (c5_filter_match ['s', 'y', 's'] p [p] (by decide)).mpr
    ⟨List.mem_singleton.mpr rfl, Or.inl (by decide)⟩

/- ── Claim C9 ─────────────────────────────────────────────────────────────── -/

/-- C9 behaviour at the failing input: when the snapshot fetch throws,
refresh leaves displayed/selected/scrollOffset (the whole view state)
unchanged — there is no partial update — but the error escapes refresh
(which has no catch), and at startup it reaches main().catch, which calls
process.exit(1): the event loop does terminate because of the error,
contrary to the claim's second half. -/
theorem c9_failure_behavior :
    ∀ st : UIState,
      refreshStep none st = (st, true) ∧
      startupRefresh none st = Outcome.exited 1 := by
  intro st
  exact ⟨rfl, rfl⟩

/- ── Claim C3: counterexample (ties break exact reversal) ─────────────────── -/

/-- C3 counterexample: with two distinct records tied on cpu, sorting
ascending gives [p1, p2] (stable), re-sorting that result descending gives
[p1, p2] again (all comparator values are 0, and a stable sort keeps the
order), but the reverse of the ascending sequence is [p2, p1].  The claim
fails on lists with ties on the sort key. -/
theorem c3_counterexample :
    sortProcs (sortProcs [
        { pid := 1, ppid := 0, cpu := some 5, mem := some 0,
          stat := ['S'], tty := ['?', '?'], command := ['a'] },
        { pid := 2, ppid := 0, cpu := some 5, mem := some 0,
          stat := ['S'], tty := ['?', '?'], command := ['b'] }]
      SortField.cpu true) SortField.cpu false ≠
      (sortProcs [
        { pid := 1, ppid := 0, cpu := some 5, mem := some 0,
          stat := ['S'], tty := ['?', '?'], command := ['a'] },
        { pid := 2, ppid := 0, cpu := some 5, mem := some 0,
          stat := ['S'], tty := ['?', '?'], command := ['b'] }]
      SortField.cpu true).reverse := by
  have e : sortProcs [
      ({ pid := 1, ppid := 0, cpu := some 5, mem := some 0,
         stat := ['S'], tty := ['?', '?'], command := ['a'] } : Process),
      { pid := 2, ppid := 0, cpu := some 5, mem := some 0,
        stat := ['S'], tty := ['?', '?'], command := ['b'] }]
      SortField.cpu true = [
      { pid := 1, ppid := 0, cpu := some 5, mem := some 0,
        stat := ['S'], tty := ['?', '?'], command := ['a'] },
      { pid := 2, ppid := 0, cpu := some 5, mem := some 0,
        stat := ['S'], tty := ['?', '?'], command := ['b'] }] := by
    norm_num [sortProcs, isortCmp, insertCmp, jsComparator, cmpField, cmpNum]
  rw [e]
  have e2 : sortProcs [
      ({ pid := 1, ppid := 0, cpu := some 5, mem := some 0,
         stat := ['S'], tty := ['?', '?'], command := ['a'] } : Process),
      { pid := 2, ppid := 0, cpu := some 5, mem := some 0,
        stat := ['S'], tty := ['?', '?'], command := ['b'] }]
      SortField.cpu false = [
      { pid := 1, ppid := 0, cpu := some 5, mem := some 0,
        stat := ['S'], tty := ['?', '?'], command := ['a'] },
      { pid := 2, ppid := 0, cpu := some 5, mem := some 0,
        stat := ['S'], tty := ['?', '?'], command := ['b'] }] := by
    norm_num [sortProcs, isortCmp, insertCmp, jsComparator, cmpField, cmpNum]
  rw [e2]
  simp [Process.mk.injEq]

/- ── Stable-sort lemmas for the amended C3 ────────────────────────────────── -/

/-- Membership in an insertion. -/
theorem mem_insertCmp (cmp : Process → Process → ℚ) (x z : Process)
    (ys : List Process) : z ∈ insertCmp cmp x ys ↔ z = x ∨ z ∈ ys := by
  induction ys with
  | nil => simp [insertCmp]
  | cons y ys ih =>
    simp only [insertCmp]
    split_ifs with h
    · simp [List.mem_cons]
    · simp only [List.mem_cons, ih]
      tauto

/-- Insertion permutes consing. -/
theorem perm_insertCmp (cmp : Process → Process → ℚ) (x : Process)
    (ys : List Process) : List.Perm (insertCmp cmp x ys) (x :: ys) := by
  induction ys with
  | nil => simp [insertCmp]
  | cons y ys ih =>
    simp only [insertCmp]
    split_ifs with h
    · exact List.Perm.refl _
    · exact (ih.cons y).trans (List.Perm.swap x y ys)

/-- The insertion sort permutes its input. -/
theorem perm_isortCmp (cmp : Process → Process → ℚ) (l : List Process) :
    List.Perm (isortCmp cmp l) l := by
  induction l with
  | nil => exact List.Perm.refl _
  | cons x xs ih =>
    exact (perm_insertCmp cmp x (isortCmp cmp xs)).trans (ih.cons x)

/-- Inserting an untied element into a strictly sorted list keeps it
strictly sorted (strict transitivity orients the passed elements). -/
theorem insertCmp_pairwise_lt (cmp : Process → Process → ℚ)
    (hsym : ∀ a b, cmp a b = -(cmp b a))
    (htr : ∀ a b c, cmp a b < 0 → cmp b c < 0 → cmp a c < 0)
    (x : Process) (ys : List Process)
    (hys : ys.Pairwise (fun a b => cmp a b < 0))
    (hne : ∀ y ∈ ys, cmp x y ≠ 0) :
    (insertCmp cmp x ys).Pairwise (fun a b => cmp a b < 0) := by
  induction ys with
  | nil => simp [insertCmp]
  | cons y ys ih =>
    obtain ⟨hy, hys2⟩ := List.pairwise_cons.mp hys
    simp only [insertCmp]
    split_ifs with h
    · have hxy : cmp x y < 0 :=
        lt_of_le_of_ne h (hne y (List.mem_cons_self y ys))
      refine List.pairwise_cons.mpr ⟨?_, hys⟩
      intro z hz
      rcases List.mem_cons.mp hz with rfl | hz2
      · exact hxy
      · exact htr x y z hxy (hy z hz2)
    · have hyx : cmp y x < 0 := by
        have h1 : 0 < cmp x y := not_le.mp h
        rw [hsym y x]
        linarith
      refine List.pairwise_cons.mpr
        ⟨?_, ih hys2 (fun z hz => hne z (List.mem_cons_of_mem y hz))⟩
      intro z hz
      rcases (mem_insertCmp cmp x z ys).mp hz with rfl | hz2
      · exact hyx
      · exact hy z hz2

/-- Sorting an untied list yields a strictly sorted list. -/
theorem isortCmp_pairwise_lt (cmp : Process → Process → ℚ)
    (hsym : ∀ a b, cmp a b = -(cmp b a))
    (htr : ∀ a b c, cmp a b < 0 → cmp b c < 0 → cmp a c < 0)
    (l : List Process) (hnl : l.Pairwise (fun a b => cmp a b ≠ 0)) :
    (isortCmp cmp l).Pairwise (fun a b => cmp a b < 0) := by
  induction l with
  | nil => simp [isortCmp]
  | cons x xs ih =>
    obtain ⟨hx, hxs⟩ := List.pairwise_cons.mp hnl
    simp only [isortCmp]
    refine insertCmp_pairwise_lt cmp hsym htr x _ (ih hxs) ?_
    intro y hy
    exact hx y ((perm_isortCmp cmp xs).mem_iff.mp hy)

/-- An element the comparator sends past every list element is appended at
the end. -/
theorem insertCmp_eq_append (cmp : Process → Process → ℚ) (x : Process)
    (zs : List Process) (h : ∀ z ∈ zs, ¬ cmp x z ≤ 0) :
    insertCmp cmp x zs = zs ++ [x] := by
  induction zs with
  | nil => rfl
  | cons z zs ih =>
    simp only [insertCmp, if_neg (h z (List.mem_cons_self z zs))]
    rw [ih (fun w hw => h w (List.mem_cons_of_mem z hw))]
    rfl

/-- Sorting a list that is strictly decreasing for the comparator reverses
it. -/
theorem isortCmp_eq_reverse (cmp : Process → Process → ℚ)
    (ys : List Process) (h : ys.Pairwise (fun a b => 0 < cmp a b)) :
    isortCmp cmp ys = ys.reverse := by
  induction ys with
  | nil => rfl
  | cons y ys ih =>
    obtain ⟨hy, hys⟩ := List.pairwise_cons.mp h
    simp only [isortCmp]
    rw [ih hys]
    rw [insertCmp_eq_append cmp y ys.reverse (fun z hz => by
      have hz2 : z ∈ ys := List.mem_reverse.mp hz
      have := hy z hz2
      linarith)]
    simp

/-- Core of the amended C3: on a list without comparator ties, sorting by
`cmp` and then by the negated comparator reverses the sorted sequence. -/
theorem isort_asc_desc (cmp : Process → Process → ℚ)
    (hsym : ∀ a b, cmp a b = -(cmp b a))
    (htr : ∀ a b c, cmp a b < 0 → cmp b c < 0 → cmp a c < 0)
    (l : List Process) (hnl : l.Pairwise (fun a b => cmp a b ≠ 0)) :
    isortCmp (fun a b => -(cmp a b)) (isortCmp cmp l) =
      (isortCmp cmp l).reverse := by
  refine isortCmp_eq_reverse _ _ ?_
  refine (isortCmp_pairwise_lt cmp hsym htr l hnl).imp ?_
  intro a b hab
  linarith

/- ── Comparator properties per sort field ─────────────────────────────────── -/

/-- The string comparator is sign-antisymmetric. -/
theorem cmpStr_antisym : ∀ s t : List Char, cmpStr s t = -(cmpStr t s) := by
  intro s
  induction s with
  | nil =>
    intro t
    cases t <;> simp [cmpStr]
  | cons a as ih =>
    intro t
    cases t with
    | nil => simp [cmpStr]
    | cons b bs =>
      simp only [cmpStr]
      rcases Nat.lt_trichotomy a.toNat b.toNat with h | h | h
      · rw [if_pos h, if_neg (by omega), if_pos h]
      · rw [if_neg (by omega), if_neg (by omega), if_neg (by omega),
          if_neg (by omega)]
        exact ih bs
      · rw [if_neg (by omega), if_pos h, if_pos h]
        norm_num

/-- The string comparator is strictly transitive. -/
theorem cmpStr_lt_trans :
    ∀ s t u : List Char, cmpStr s t < 0 → cmpStr t u < 0 → cmpStr s u < 0 := by
  intro s
  induction s with
  | nil =>
    intro t u hst htu
    cases t with
    | nil => simp [cmpStr] at hst
    | cons b bs =>
      cases u with
      | nil => simp [cmpStr] at htu
      | cons c cs => simp [cmpStr]
  | cons a as ih =>
    intro t u hst htu
    cases t with
    | nil => simp [cmpStr] at hst
    | cons b bs =>
      cases u with
      | nil => simp [cmpStr] at htu
      | cons c cs =>
        simp only [cmpStr] at hst htu ⊢
        by_cases hab : a.toNat < b.toNat
        · by_cases hbc : b.toNat < c.toNat
          · rw [if_pos (by omega)]
            norm_num
          · by_cases hcb : c.toNat < b.toNat
            · rw [if_neg hbc, if_pos hcb] at htu
              omega
            · rw [if_pos (by omega)]
              norm_num
        · by_cases hba : b.toNat < a.toNat
          · rw [if_neg hab, if_pos hba] at hst
            omega
          · rw [if_neg hab, if_neg hba] at hst
            by_cases hbc : b.toNat < c.toNat
            · rw [if_pos (by omega)]
              norm_num
            · by_cases hcb : c.toNat < b.toNat
              · rw [if_neg hbc, if_pos hcb] at htu
                omega
              · rw [if_neg hbc, if_neg hcb] at htu
                rw [if_neg (by omega), if_neg (by omega)]
                exact ih bs cs hst htu

/-- Every field comparator is sign-antisymmetric (for cpu/mem any NaN
operand gives 0 on both sides). -/
theorem cmpField_antisym (f : SortField) (a b : Process) :
    cmpField f a b = -(cmpField f b a) := by
  cases f with
  | pid =>
    simp only [cmpField]
    ring
  | cpu =>
    simp only [cmpField, cmpNum]
    cases ha : a.cpu <;> cases hb : b.cpu <;> simp only [ha, hb] <;> ring
  | mem =>
    simp only [cmpField, cmpNum]
    cases ha : a.mem <;> cases hb : b.mem <;> simp only [ha, hb] <;> ring
  | status =>
    simp only [cmpField]
    rw [cmpStr_antisym]
    push_cast
    ring
  | command =>
    simp only [cmpField]
    rw [cmpStr_antisym]
    push_cast
    ring

/-- Every field comparator is strictly transitive: a strictly negative
cpu/mem comparison forces both operands defined, so NaN records never
break transitivity. -/
theorem cmpField_lt_trans (f : SortField) (a b c : Process)
    (h1 : cmpField f a b < 0) (h2 : cmpField f b c < 0) :
    cmpField f a c < 0 := by
  cases f with
  | pid =>
    simp only [cmpField] at *
    linarith
  | cpu =>
    simp only [cmpField, cmpNum] at *
    cases ha : a.cpu <;> cases hb : b.cpu <;> cases hc : c.cpu <;>
      simp only [ha, hb, hc] at h1 h2 ⊢ <;> linarith
  | mem =>
    simp only [cmpField, cmpNum] at *
    cases ha : a.mem <;> cases hb : b.mem <;> cases hc : c.mem <;>
      simp only [ha, hb, hc] at h1 h2 ⊢ <;> linarith
  | status =>
    simp only [cmpField] at *
    have h1i : cmpStr a.stat b.stat < 0 := by exact_mod_cast h1
    have h2i : cmpStr b.stat c.stat < 0 := by exact_mod_cast h2
    exact_mod_cast cmpStr_lt_trans a.stat b.stat c.stat h1i h2i
  | command =>
    simp only [cmpField] at *
    have h1i : cmpStr a.command b.command < 0 := by exact_mod_cast h1
    have h2i : cmpStr b.command c.command < 0 := by exact_mod_cast h2
    exact_mod_cast cmpStr_lt_trans a.command b.command c.command h1i h2i

/- ── Claim C3 (amended) ────────────────────────────────────────────────────── -/

/-- C3 (amended): for every list of records whose comparator keys on the
chosen sort field are pairwise untied (no two records compare equal on that
field), sorting ascending and then sorting the result descending yields the
exact reverse of the ascending sequence, for every sort field.  On lists
with ties the stable sort preserves input order inside a tie group, so the
exact-reverse identity fails (see the counterexample). -/
theorem c3_amended (l : List Process) (f : SortField)
    (hne : l.Pairwise (fun a b => cmpField f a b ≠ 0)) :
    sortProcs (sortProcs l f true) f false = (sortProcs l f true).reverse := by
  have e1 : jsComparator f true = fun a b => cmpField f a b := by
    funext a b
    simp [jsComparator]
  have e2 : jsComparator f false = fun a b => -(cmpField f a b) := by
    funext a b
    simp [jsComparator]
  simp only [sortProcs, e1, e2]
  exact isort_asc_desc (cmpField f) (cmpField_antisym f) (cmpField_lt_trans f)
    l hne

/-- Witness for C3 (amended): two records with distinct cpu values, sorted
by cpu ascending then descending, land in exact reverse order. -/
theorem c3_amended_witness :
    sortProcs (sortProcs [
        ({ pid := 1, ppid := 0, cpu := some 5, mem := some 0,
           stat := ['S'], tty := ['?', '?'], command := ['a'] } : Process),
        { pid := 2, ppid := 0, cpu := some 50, mem := some 0,
          stat := ['S'], tty := ['?', '?'], command := ['b'] }]
      SortField.cpu true) SortField.cpu false =
      (sortProcs [
        ({ pid := 1, ppid := 0, cpu := some 5, mem := some 0,
           stat := ['S'], tty := ['?', '?'], command := ['a'] } : Process),
        { pid := 2, ppid := 0, cpu := some 50, mem := some 0,
          stat := ['S'], tty := ['?', '?'], command := ['b'] }]
      SortField.cpu true).reverse := by
  apply c3_amended
  refine List.pairwise_cons.mpr ⟨?_, List.pairwise_singleton _ _⟩
  intro y hy
  rcases List.mem_singleton.mp hy with rfl
  norm_num [cmpField, cmpNum]

/- ── Navigation lemmas for C7 ─────────────────────────────────────────────── -/

/-- Scroll bounds established by ensureVisible: from any selection inside
the list bounds (or pinned to 0 on an empty list) and a viewport of height
at least 1, the clamped scroll offset lands in `[0, max 0 (N - h)]` with
the selection inside the viewport. -/
theorem ensureVisible_bounds (st : UIState)
    (hh : 1 ≤ st.viewportH)
    (hsel : (st.displayed.length = 0 ∧ st.selected = 0) ∨
      (0 ≤ st.selected ∧ st.selected ≤ (st.displayed.length : ℤ) - 1)) :
    0 ≤ (ensureVisible st).scrollOffset ∧
    (ensureVisible st).scrollOffset ≤
      max 0 ((st.displayed.length : ℤ) - st.viewportH) ∧
    (ensureVisible st).scrollOffset ≤ st.selected ∧
    st.selected ≤ (ensureVisible st).scrollOffset + st.viewportH - 1 := by
  obtain ⟨d, sel, so, h, f, fg, sb, sa, cf⟩ := st
  unfold ensureVisible clampScroll
  simp only at hsel ⊢
  rcases hsel with ⟨h0, hs0⟩ | ⟨hs1, hs2⟩ <;> split_ifs <;> simp_all <;> omega

/-- ensureVisible only rewrites the scroll offset. -/
theorem ensureVisible_fields (st : UIState) :
    (ensureVisible st).selected = st.selected ∧
    (ensureVisible st).displayed = st.displayed ∧
    (ensureVisible st).viewportH = st.viewportH ∧
    (ensureVisible st).confirm = st.confirm ∧
    (ensureVisible st).filtering = st.filtering := by
  exact ⟨rfl, rfl, rfl, rfl, rfl⟩

/-- ensureVisible establishes the full navigation invariant. -/
theorem ensureVisible_inv (st : UIState) (hh : 1 ≤ st.viewportH)
    (hsel : (st.displayed.length = 0 ∧ st.selected = 0) ∨
      (0 ≤ st.selected ∧ st.selected ≤ (st.displayed.length : ℤ) - 1)) :
    NavInv (ensureVisible st) := by
  have hb := ensureVisible_bounds st hh hsel
  have hfld := ensureVisible_fields st
  unfold NavInv
  rw [hfld.1, hfld.2.1, hfld.2.2.1]
  refine ⟨?_, hb.1, hb.2.1, hb.2.2.1, hb.2.2.2⟩
  split_ifs with h0
  · rcases hsel with ⟨_, h⟩ | ⟨h1, h2⟩
    · exact h
    · omega
  · rcases hsel with ⟨h, _⟩ | hrest
    · exact absurd h h0
    · exact hrest

/-- A navigation move: setting the selection to a value inside the list
bounds (or 0 on an empty list) and re-deriving the scroll offset restores
the invariant and leaves all other state alone. -/
theorem navMove_inv (st : UIState) (v : ℤ)
    (hh : 1 ≤ st.viewportH)
    (hv : (st.displayed.length = 0 ∧ v = 0) ∨
      (0 ≤ v ∧ v ≤ (st.displayed.length : ℤ) - 1)) :
    NavInv (ensureVisible { st with selected := v }) ∧
      (ensureVisible { st with selected := v }).confirm = st.confirm ∧
      (ensureVisible { st with selected := v }).filtering = st.filtering ∧
      (ensureVisible { st with selected := v }).displayed = st.displayed ∧
      (ensureVisible { st with selected := v }).viewportH = st.viewportH := by
  have hfld := ensureVisible_fields { st with selected := v }
  refine ⟨ensureVisible_inv { st with selected := v } hh ?_,
    hfld.2.2.2.1, hfld.2.2.2.2, hfld.2.1, hfld.2.2.1⟩
  exact hv

/-- One navigation keypress preserves the invariant and the rest of the
view state, provided the list is nonempty or the key is not half-page-down
(the half-page-down case on an empty list is the C7 counterexample). -/
theorem navStep_inv (st : UIState) (k : KeyEvent)
    (hk : k.name ∈ navKeyNames)
    (hc : st.confirm = none) (hf : st.filtering = false)
    (hh : 1 ≤ st.viewportH)
    (hN : 1 ≤ st.displayed.length ∨
      (st.displayed.length = 0 ∧ k.name ≠ ['d']))
    (hinv : NavInv st) :
    NavInv (handleKey st k).1 ∧ (handleKey st k).1.confirm = none ∧
      (handleKey st k).1.filtering = false ∧
      (handleKey st k).1.displayed = st.displayed ∧
      (handleKey st k).1.viewportH = st.viewportH := by
  obtain ⟨d, sel, so, vh, fl, fg, sb, sa, cf⟩ := st
  simp only at hc hf hh hN hinv ⊢
  subst hc hf
  have hsel0 : (d.length = 0 ∧ sel = 0) ∨
      (0 ≤ sel ∧ sel ≤ (d.length : ℤ) - 1) := by
    have h1 : (if d.length = 0 then sel = 0
        else 0 ≤ sel ∧ sel ≤ (d.length : ℤ) - 1) := hinv.1
    rcases Nat.eq_zero_or_pos d.length with h0 | hpos
    · left
      refine ⟨h0, ?_⟩
      rwa [if_pos h0] at h1
    · right
      rwa [if_neg (by omega)] at h1
  simp only [navKeyNames, List.mem_cons, List.not_mem_nil, or_false] at hk
  rcases hk with hj | hdn | hkk | hup | hd | hu | hg | hG
  · simp only [handleKey, hj]
    simp
    split_ifs with hcond
    · exact navMove_inv (UIState.mk d sel so vh fl false sb sa none) (sel + 1)
        hh
        ((by rcases hsel0 with ⟨h0, hs⟩ | ⟨h1, h2⟩ <;> [left; right] <;>
            constructor <;> omega) :
          (d.length = 0 ∧ sel + 1 = 0) ∨
            (0 ≤ sel + 1 ∧ sel + 1 ≤ (d.length : ℤ) - 1))
    · exact ⟨hinv, rfl, rfl, rfl, rfl⟩
  · simp only [handleKey, hdn]
    simp
    split_ifs with hcond
    · exact navMove_inv (UIState.mk d sel so vh fl false sb sa none) (sel + 1)
        hh
        ((by rcases hsel0 with ⟨h0, hs⟩ | ⟨h1, h2⟩ <;> [left; right] <;>
            constructor <;> omega) :
          (d.length = 0 ∧ sel + 1 = 0) ∨
            (0 ≤ sel + 1 ∧ sel + 1 ≤ (d.length : ℤ) - 1))
    · exact ⟨hinv, rfl, rfl, rfl, rfl⟩
  · simp only [handleKey, hkk]
    simp
    split_ifs with hcond
    · exact navMove_inv (UIState.mk d sel so vh fl false sb sa none) (sel - 1)
        hh
        ((by rcases hsel0 with ⟨h0, hs⟩ | ⟨h1, h2⟩ <;> [left; right] <;>
            constructor <;> omega) :
          (d.length = 0 ∧ sel - 1 = 0) ∨
            (0 ≤ sel - 1 ∧ sel - 1 ≤ (d.length : ℤ) - 1))
    · exact ⟨hinv, rfl, rfl, rfl, rfl⟩
  · simp only [handleKey, hup]
    simp
    split_ifs with hcond
    · exact navMove_inv (UIState.mk d sel so vh fl false sb sa none) (sel - 1)
        hh
        ((by rcases hsel0 with ⟨h0, hs⟩ | ⟨h1, h2⟩ <;> [left; right] <;>
            constructor <;> omega) :
          (d.length = 0 ∧ sel - 1 = 0) ∨
            (0 ≤ sel - 1 ∧ sel - 1 ≤ (d.length : ℤ) - 1))
    · exact ⟨hinv, rfl, rfl, rfl, rfl⟩
  · have hpos : 1 ≤ d.length := by
      rcases hN with h | ⟨_, hne⟩
      · exact h
      · exact absurd hd hne
    simp only [handleKey, hd]
    simp
    exact navMove_inv (UIState.mk d sel so vh fl false sb sa none)
      (min ((d.length : ℤ) - 1) (sel + vh / 2)) hh
      ((by
        right
        have hdiv : 0 ≤ vh / 2 := by omega
        rcases hsel0 with ⟨h0, hs⟩ | ⟨h1, h2⟩ <;> constructor <;> omega) :
        (d.length = 0 ∧ min ((d.length : ℤ) - 1) (sel + vh / 2) = 0) ∨
          (0 ≤ min ((d.length : ℤ) - 1) (sel + vh / 2) ∧
            min ((d.length : ℤ) - 1) (sel + vh / 2) ≤ (d.length : ℤ) - 1))
  · simp only [handleKey, hu]
    simp
    exact navMove_inv (UIState.mk d sel so vh fl false sb sa none)
      (max 0 (sel - vh / 2)) hh
      ((by
        have hdiv : 0 ≤ vh / 2 := by omega
        rcases hsel0 with ⟨h0, hs⟩ | ⟨h1, h2⟩ <;> [left; right] <;>
          constructor <;> omega) :
        (d.length = 0 ∧ max 0 (sel - vh / 2) = 0) ∨
          (0 ≤ max 0 (sel - vh / 2) ∧
            max 0 (sel - vh / 2) ≤ (d.length : ℤ) - 1))
  · simp only [handleKey, hg]
    simp
    exact navMove_inv (UIState.mk d sel so vh fl false sb sa none) 0 hh
      ((by rcases hsel0 with ⟨h0, hs⟩ | ⟨h1, h2⟩ <;> [left; right] <;>
          constructor <;> omega) :
        (d.length = 0 ∧ (0 : ℤ) = 0) ∨
          (0 ≤ (0 : ℤ) ∧ (0 : ℤ) ≤ (d.length : ℤ) - 1))
  · simp only [handleKey, hG]
    simp
    exact navMove_inv (UIState.mk d sel so vh fl false sb sa none)
      (max 0 ((d.length : ℤ) - 1)) hh
      ((by rcases hsel0 with ⟨h0, hs⟩ | ⟨h1, h2⟩ <;> [left; right] <;>
          constructor <;> omega) :
        (d.length = 0 ∧ max 0 ((d.length : ℤ) - 1) = 0) ∨
          (0 ≤ max 0 ((d.length : ℤ) - 1) ∧
            max 0 ((d.length : ℤ) - 1) ≤ (d.length : ℤ) - 1))

/- ── Claim C7 ─────────────────────────────────────────────────────────────── -/

/-- C7 counterexample: from a state satisfying every claimed bound
(empty displayed list, selectedIndex 0, scrollOffset 0, viewport height 2),
the half-page-down navigation key sets selectedIndex to
min(N-1, 0+floor(2/2)) = min(-1, 1) = -1, not the 0 the claim requires for
an empty list (and -1 also falls outside [scrollOffset, scrollOffset +
viewportHeight - 1] = [0, 1]). -/
theorem c7_counterexample :
    NavInv
      { displayed := [], selected := 0, scrollOffset := 0, viewportH := 2,
        filter := [], filtering := false, sortBy := SortField.cpu,
        sortAsc := false, confirm := none } ∧
    (handleKey
      { displayed := [], selected := 0, scrollOffset := 0, viewportH := 2,
        filter := [], filtering := false, sortBy := SortField.cpu,
        sortAsc := false, confirm := none }
      { name := ['d'], sequence := ['d'], ctrl := false,
        meta := false }).1.displayed.length = 0 ∧
    (handleKey
      { displayed := [], selected := 0, scrollOffset := 0, viewportH := 2,
        filter := [], filtering := false, sortBy := SortField.cpu,
        sortAsc := false, confirm := none }
      { name := ['d'], sequence := ['d'], ctrl := false,
        meta := false }).1.selected = -1 := by
  refine ⟨?_, ?_, ?_⟩
  · unfold NavInv
    decide
  · decide
  · decide

/-- C7 (amended): after any sequence of the navigation keypresses (line
up/down, half-page up/down, jump-to-top, jump-to-bottom) applied in normal
mode to a view state satisfying the bounds, with viewport height at least
1, and with the list nonempty or the sequence free of half-page-down, the
bounds still hold: selectedIndex ∈ [0, N-1] (0 if N = 0), scrollOffset ∈
[0, max 0 (N - viewportHeight)], and selectedIndex within
[scrollOffset, scrollOffset + viewportHeight - 1].  On an empty list the
half-page-down key breaks the claim (see the counterexample). -/
theorem c7_amended (st0 : UIState) (keys : List KeyEvent)
    (hkeys : ∀ k ∈ keys, k.name ∈ navKeyNames)
    (hc : st0.confirm = none) (hf : st0.filtering = false)
    (hh : 1 ≤ st0.viewportH)
    (hN : 1 ≤ st0.displayed.length ∨
      (st0.displayed.length = 0 ∧ ∀ k ∈ keys, k.name ≠ ['d']))
    (hinv : NavInv st0) :
    NavInv (keys.foldl (fun s k => (handleKey s k).1) st0) := by
  induction keys generalizing st0 with
  | nil => simpa using hinv
  | cons k ks ih =>
    simp only [List.foldl_cons]
    obtain ⟨h1, h2, h3, h4, h5⟩ := navStep_inv st0 k
      (hkeys k (List.mem_cons_self k ks)) hc hf hh
      (by
        rcases hN with h | ⟨h0, hall⟩
        · exact Or.inl h
        · exact Or.inr ⟨h0, hall k (List.mem_cons_self k ks)⟩)
      hinv
    apply ih
    · intro k2 hk2
      exact hkeys k2 (List.mem_cons_of_mem k hk2)
    · exact h2
    · exact h3
    · rw [h5]
      exact hh
    · rcases hN with h | ⟨h0, hall⟩
      · left
        rw [h4]
        exact h
      · right
        refine ⟨by rw [h4]; exact h0, ?_⟩
        intro k2 hk2
        exact hall k2 (List.mem_cons_of_mem k hk2)
    · exact h1

/-- Witness for C7 (amended): a three-key navigation sequence
(j, G, u) on a one-element list with a viewport of height 1 keeps the
bounds. -/
theorem c7_amended_witness :
    NavInv (List.foldl (fun s k => (handleKey s k).1)
      { displayed :=
          [{ pid := 1, ppid := 0, cpu := some 0, mem := some 0,
             stat := ['S'], tty := ['?', '?'], command := ['a'] }],
        selected := 0, scrollOffset := 0, viewportH := 1,
        filter := [], filtering := false, sortBy := SortField.cpu,
        sortAsc := false, confirm := none }
      [{ name := ['j'], sequence := ['j'], ctrl := false, meta := false },
       { name := ['G'], sequence := ['G'], ctrl := false, meta := false },
       { name := ['u'], sequence := ['u'], ctrl := false, meta := false }]) := by
  apply c7_amended
  · decide
  · decide
  · decide
  · decide
  · left
    decide
  · unfold NavInv
    decide

/- ── Claim C8 ─────────────────────────────────────────────────────────────── -/

/-- C8: while a confirmation is pending, every keypress only resolves the
confirmation — the resulting state is always the old state with the
confirmation cleared, so no navigation, sort, or filter-editing input is
processed; any key other than y cancels with no effect dispatched and the
view state otherwise unchanged.  And pressing K/t/r with no record at
selectedIndex (e.g. an empty displayed list) is a complete no-op that does
not enter the confirming state. -/
theorem c8_confirm_gate :
    (∀ (st : UIState) (cf : ConfirmInfo) (k : KeyEvent),
      st.confirm = some cf →
      (handleKey st k).1 = { st with confirm := none } ∧
      (k.name ≠ ['y'] → handleKey st k = ({ st with confirm := none }, []))) ∧
    (∀ (st : UIState) (k : KeyEvent),
      st.confirm = none → st.filtering = false → selRecord st = none →
      (k.name = ['K'] ∨ k.name = ['t'] ∨ k.name = ['r']) →
      handleKey st k = (st, [])) := by
  constructor
  · intro st cf k hc
    constructor
    · simp only [handleKey, hc]
      split_ifs <;> rfl
    · intro hk
      simp only [handleKey, hc]
      rw [if_neg hk]
  · intro st k hc hf hsel hk
    obtain ⟨d, sel, so, vh, fl, fg, sb, sa, cf⟩ := st
    simp only at hc hf hsel
    subst hc hf
    rcases hk with hK | ht | hr
    · simp only [handleKey, hK]
      simp [hsel]
    · simp only [handleKey, ht]
      simp [hsel]
    · simp only [handleKey, hr]
      simp [hsel]

/-- Witness for C8: a pending SIGKILL confirmation cancelled by the key n
leaves the state otherwise untouched with nothing dispatched, and pressing
K on an empty list is a no-op. -/
theorem c8_confirm_gate_witness :
    handleKey
      { displayed := [], selected := 0, scrollOffset := 0, viewportH := 5,
        filter := [], filtering := false, sortBy := SortField.cpu,
        sortAsc := false,
        confirm := some { pid := 7, cmd := ['x'], action := ActionKind.kill } }
      { name := ['n'], sequence := ['n'], ctrl := false, meta := false } =
      ({ displayed := [], selected := 0, scrollOffset := 0, viewportH := 5,
         filter := [], filtering := false, sortBy := SortField.cpu,
         sortAsc := false, confirm := none }, []) ∧
    handleKey
      { displayed := [], selected := 0, scrollOffset := 0, viewportH := 5,
        filter := [], filtering := false, sortBy := SortField.cpu,
        sortAsc := false, confirm := none }
      { name := ['K'], sequence := ['K'], ctrl := false, meta := false } =
      ({ displayed := [], selected := 0, scrollOffset := 0, viewportH := 5,
         filter := [], filtering := false, sortBy := SortField.cpu,
         sortAsc := false, confirm := none }, []) := by
  constructor
  · exact ((c8_confirm_gate.1
      { displayed := [], selected := 0, scrollOffset := 0, viewportH := 5,
        filter := [], filtering := false, sortBy := SortField.cpu,
        sortAsc := false,
        confirm := some { pid := 7, cmd := ['x'], action := ActionKind.kill } }
      { pid := 7, cmd := ['x'], action := ActionKind.kill }
      { name := ['n'], sequence := ['n'], ctrl := false, meta := false }
      rfl).2 (by decide))
  · exact c8_confirm_gate.2
      { displayed := [], selected := 0, scrollOffset := 0, viewportH := 5,
        filter := [], filtering := false, sortBy := SortField.cpu,
        sortAsc := false, confirm := none }
      { name := ['K'], sequence := ['K'], ctrl := false, meta := false }
      rfl rfl (by decide) (Or.inl rfl)
